import Mathlib

/-!
Shallow embedding of the tradebot-definedge core, used to check the
natural-language specification against the code.

Part 1 models `tradebot/session_manager.py` (class `SessionManager`):
the in-memory credential fields, the persisted session record
(`data/.session.json`), step-2 login completion, header/token accessors,
logout and the startup load. Network responses are passed in as values;
time is a `Nat` parameter.

Part 2 models `tradebot/historical_data.py` (class
`HistoricalDataManager`): the per-key local CSV dataset, the resume-point
computation, the fetch/parse/merge/save pipeline of `download`, and
`get_previous_close`. Timestamps are seconds since the epoch as `Nat`;
the `pd.to_datetime(..., errors="coerce")` result of a cell is an
`Option Nat` (`none` standing for `NaT`); pandas `sort_values` on the
timestamp column (default `kind="quicksort"`, whose tie order on equal
keys is unspecified) is a parameter constrained only to produce a
key-ordered permutation with missing keys last, and
`drop_duplicates(subset=[ts], keep="last")` keeps, per key, the last
occurrence in row order. The `ddMMyyyyHHmm` wire format of
`_fmt_dt_for_api` carries no seconds, so requests hold minute-floored
timestamps, and `_call_history_api` delivers a fetch in up to two GETs:
the `api_client.get` attempt and, when it raises or returns non-200, a
direct `requests.get` fallback to the same URL.
-/

namespace Tradebot

/-- Python truthiness of an optional string: `None` and the empty string
are falsy, which is what `if not value` and `bool(...)` test in the
source. -/
def strTruthy : Option String → Bool
  | none => false
  | some s => !s.isEmpty

/-- Python `str.lower()` on the ASCII strings the protocol compares:
lowercase each character of the string. Defined over the character list
so that concrete instances reduce. -/
def pyLower (s : String) : String :=
  ⟨s.data.map Char.toLower⟩

/-- Python `a or b` on two optional strings: yields `a` when `a` is
truthy, else `b` (used for `data.get("uid") or data.get("actid")`). -/
def pyOr (a b : Option String) : Option String :=
  if strTruthy a then a else b

/-- The single exception class `SessionError` of the source, carrying its
message. -/
structure SessionError where
  msg : String
deriving DecidableEq, Repr

/-- The durable session record written by `_save_session` as JSON:
exactly the four fields, each possibly `null`. -/
structure SessionRecord where
  api_session_key : Option String
  susertoken : Option String
  uid : Option String
  last_login_ts : Option Nat
deriving DecidableEq, Repr

/-- The state of the persistence file `data/.session.json`: missing,
present but not valid JSON, or a parsed record. -/
inductive PersistFile
  | absent
  | corrupt
  | good (r : SessionRecord)
deriving DecidableEq, Repr

/-- The mutable fields of a `SessionManager` instance together with the
persistence file it owns. The write-once config fields
(`api_token`, `api_secret`, `totp_secret`) play no role in the modelled
operations and are omitted. -/
structure SessionState where
  api_session_key : Option String
  susertoken : Option String
  uid : Option String
  last_login_ts : Option Nat
  persist_file : PersistFile
deriving DecidableEq, Repr

/-- The JSON body of the step-2 token response, with each field optional
exactly as `dict.get` sees it. -/
structure Step2Response where
  stat : Option String
  api_session_key : Option String
  susertoken : Option String
  uid : Option String
  actid : Option String
deriving DecidableEq, Repr

/-- A transport-level failure of the HTTP POST (`_raise_for_status`):
status code and truncated body. -/
structure HttpFailure where
  code : Nat
  body : String
deriving DecidableEq, Repr

/-- Model of `SessionManager.login_step2_with_otp`. The HTTP exchange is
an input: either a transport failure (raised by `_raise_for_status`
before any field is touched) or the parsed JSON body. Following the
source statement order: a non-ok `stat` raises before any assignment;
otherwise the four fields are assigned from the response, and only then
are the two credentials checked — a missing credential raises after the
assignments, so the mutated state is kept; `_save_session` runs last.
The returned pair is the post-call state and the raised error, if any. -/
def login_step2_with_otp (st : SessionState) (now : Nat)
    (resp : Except HttpFailure Step2Response) :
    SessionState × Option SessionError :=
  match resp with
  | .error e => (st, some ⟨s!"Login step 2 failed: {e.code}"⟩)
  | .ok data =>
    if pyLower (data.stat.getD "") != "ok" then
      (st, some ⟨"Login step 2 not OK"⟩)
    else
      let st1 : SessionState :=
        { st with
          api_session_key := data.api_session_key
          susertoken := data.susertoken
          uid := pyOr data.uid data.actid
          last_login_ts := some now }
      if !strTruthy st1.api_session_key || !strTruthy st1.susertoken then
        (st1, some ⟨"Missing api_session_key or susertoken in token response"⟩)
      else
        ({ st1 with
            persist_file := .good
              ⟨st1.api_session_key, st1.susertoken, st1.uid, st1.last_login_ts⟩ },
          none)

/-- Model of `SessionManager.get_auth_headers`: `_require` on
`api_session_key` only, then the bearer header. -/
def get_auth_headers (st : SessionState) :
    Except SessionError (List (String × String)) :=
  if strTruthy st.api_session_key then
    .ok [("Authorization", st.api_session_key.getD "")]
  else
    .error ⟨"No api_session_key - please login first"⟩

/-- Model of `SessionManager.get_ws_token`: `_require` on `susertoken`
only. -/
def get_ws_token (st : SessionState) : Except SessionError String :=
  if strTruthy st.susertoken then
    .ok (st.susertoken.getD "")
  else
    .error ⟨"No susertoken - please login first"⟩

/-- Model of `SessionManager.is_logged_in`:
`bool(self.api_session_key and self.susertoken)`. -/
def is_logged_in (st : SessionState) : Bool :=
  strTruthy st.api_session_key && strTruthy st.susertoken

/-- Model of `SessionManager.logout`: clear the four fields and remove
the persistence file if it exists. -/
def logout (st : SessionState) : SessionState :=
  { st with
    api_session_key := none
    susertoken := none
    uid := none
    last_login_ts := none
    persist_file := .absent }

/-- Model of `SessionManager._load_session`: a missing file returns
early; a corrupt file is swallowed by the bare `except`; a parsed record
overwrites all four fields with whatever the record holds. -/
def load_session (st : SessionState) : SessionState :=
  match st.persist_file with
  | .absent => st
  | .corrupt => st
  | .good r =>
    { st with
      api_session_key := r.api_session_key
      susertoken := r.susertoken
      uid := r.uid
      last_login_ts := r.last_login_ts }

/-- The spec invariant on credentials: `sessionKey` and `userToken` both
non-empty or both absent/empty. -/
def credInvariant (st : SessionState) : Prop :=
  strTruthy st.api_session_key = strTruthy st.susertoken

/-- The record-level analogue of `credInvariant` for a persisted file. -/
def recordInvariant : PersistFile → Prop
  | .good r => strTruthy r.api_session_key = strTruthy r.susertoken
  | _ => True

/-! Historical data synchronizer (`tradebot/historical_data.py`). -/

/-- The three supported granularities. -/
inductive Timeframe
  | day
  | minute
  | tick
deriving DecidableEq, Repr

/-- The path fragment of a timeframe as used in the URL and file name. -/
def Timeframe.name : Timeframe → String
  | .day => "day"
  | .minute => "minute"
  | .tick => "tick"

/-- One unit of a timeframe in seconds: the `timedelta` added to the last
stored timestamp to obtain the resume point in `download`. -/
def unitStep : Timeframe → Nat
  | .day => 86400
  | .minute => 60
  | .tick => 1

/-- One parsed day/minute row: columns
`datetime, open, high, low, close, volume, oi`. The datetime cell after
`pd.to_datetime(..., errors="coerce")` is `Option Nat` with `none` for
`NaT`; the numeric cells are integers in the model. -/
structure OhlcRow where
  datetime : Option Nat
  open_ : Int
  high : Int
  low : Int
  close : Int
  volume : Int
  oi : Int
deriving DecidableEq, Repr

/-- One parsed tick row: columns `utc, ltp, ltq, oi`, the `utc` cell
converted to a datetime (`none` for an unparseable cell). -/
structure TickRow where
  utc : Option Nat
  ltp : Int
  ltq : Int
  oi : Int
deriving DecidableEq, Repr

/-- The contents of the dataset file returned by a `download` call: rows
of the shape matching the timeframe of the call. -/
inductive FileData
  | ohlc (rows : List OhlcRow)
  | tickd (rows : List TickRow)
deriving DecidableEq, Repr

/-- The local files of one `(segment, token)` pair. The file name
`{token}_{timeframe}.csv` keys each timeframe to its own file, so a day
call never reads a tick-shaped file. `none` means the file does not
exist; `some rows` is the parsed contents (a header-only file is
`some []`, which pandas reads as an empty frame). -/
structure HistState where
  dayFile : Option (List OhlcRow)
  minuteFile : Option (List OhlcRow)
  tickFile : Option (List TickRow)
deriving DecidableEq, Repr

/-- One GET against the remote history endpoint:
`{segment}/{token}/{timeframe}/{from}/{to}`. The range bounds are the
wire values: `_fmt_dt_for_api` formats `ddMMyyyyHHmm`, which carries no
seconds, so `fromTs`/`toTs` hold the minute floor of the datetimes (the
format is injective on whole minutes). -/
structure HistReq where
  segment : String
  token : String
  timeframe : String
  fromTs : Nat
  toTs : Nat
deriving DecidableEq, Repr

/-- The exception `HistoricalDataError` (or a propagated parse error),
with the source of the failure kept apart. -/
inductive HistErr
  | transport (code : Nat) (body : String)
  | parseError (msg : String)
deriving DecidableEq, Repr

/-- Minute floor applied by `_fmt_dt_for_api`: `ddMMyyyyHHmm` transmits
no seconds, so a timestamp goes on the wire truncated to its minute. -/
def truncMinute (t : Nat) : Nat :=
  t / 60 * 60

/-- What `api_client.get(full_url)` comes back with, as
`_call_history_api` inspects it: the call may raise (the shipped
`APIClient.get` performs one GET to the URL and then calls `r.json()`,
which raises on a CSV body; a transport error raises too), return a
`requests.Response`-like value with a status code and text, or return
the body as a string (a non-Response, non-string value is stringified
and treated the same way). Bodies are pre-split into CSV lines of
cells. -/
inductive ClientResult
  | raised
  | response (status : Nat) (body : List (List String))
  | text (body : List (List String))
deriving DecidableEq, Repr

/-- The two remote channels `_call_history_api` can use: the injected
`api_client.get` (one GET to the given URL, as the shipped `APIClient`
performs), and the direct `requests.get` fallback, returning a status
code and a body. -/
structure Remote where
  clientGet : HistReq → ClientResult
  fallbackGet : HistReq → Nat × List (List String)

/-- Model of `_call_history_api`: try `api_client.get(full_url)`; a
Response-like value with status 200 yields its text, a non-200 status
raises `HistoricalDataError`, a plain string is returned directly. Any
exception inside the try — including that non-200 raise and the shipped
client raising in `r.json()` on CSV — is swallowed by the bare
`except`, and a second, direct GET to the same URL answers instead,
raising on its own non-200. Returns the outcome and the list of GETs
issued. -/
def call_history_api (rem : Remote) (req : HistReq) :
    Except HistErr (List (List String)) × List HistReq :=
  let fallback : Except HistErr (List (List String)) × List HistReq :=
    let r := rem.fallbackGet req
    if r.1 == 200 then (.ok r.2, [req, req])
    else (.error (.transport r.1 "History API failed"), [req, req])
  match rem.clientGet req with
  | .response status body =>
    if status == 200 then (.ok body, [req]) else fallback
  | .text body => (.ok body, [req])
  | .raised => fallback

/-- Digit-string accumulator: the numeral value of a character list, or
`none` on a non-digit. Structural recursion so that concrete cells
reduce. -/
def natOfDigitsAux : List Char → Nat → Option Nat
  | [], acc => some acc
  | c :: cs, acc =>
    if c.isDigit then natOfDigitsAux cs (acc * 10 + (c.toNat - 48))
    else none

/-- One CSV cell as a number, as pandas stores it: an optional leading
minus sign and digits; in the model an unparseable cell degrades to
`0`. -/
def toIntCell (s : String) : Int :=
  (match s.data with
    | [] => none
    | '-' :: cs => (natOfDigitsAux cs 0).map fun n => -(n : Int)
    | cs => (natOfDigitsAux cs 0).map fun n => (n : Int)).getD 0

/-- One datetime cell after `pd.to_datetime(..., errors="coerce")`:
`none` models `NaT`. The model reads timestamps written as plain
numbers of seconds. -/
def parseTsCell (s : String) : Option Nat :=
  match s.data with
  | [] => none
  | cs => natOfDigitsAux cs 0

/-- Model of `_parse_day_minute_df`: `pd.read_csv` on an empty body
raises (`EmptyDataError`); otherwise each line is read positionally into
the seven named columns, missing trailing cells filled like NaN, and the
datetime column coerced. -/
def parse_day_minute (body : List (List String)) :
    Except HistErr (List OhlcRow) :=
  if body.isEmpty then
    .error (.parseError "No columns to parse from file")
  else
    .ok (body.map fun cells =>
      { datetime := parseTsCell (cells.getD 0 "")
        open_ := toIntCell (cells.getD 1 "")
        high := toIntCell (cells.getD 2 "")
        low := toIntCell (cells.getD 3 "")
        close := toIntCell (cells.getD 4 "")
        volume := toIntCell (cells.getD 5 "")
        oi := toIntCell (cells.getD 6 "") })

/-- Model of `_parse_tick_df`: the four tick columns, `utc` converted to
a datetime. -/
def parse_tick (body : List (List String)) :
    Except HistErr (List TickRow) :=
  if body.isEmpty then
    .error (.parseError "No columns to parse from file")
  else
    .ok (body.map fun cells =>
      { utc := parseTsCell (cells.getD 0 "")
        ltp := toIntCell (cells.getD 1 "")
        ltq := toIntCell (cells.getD 2 "")
        oi := toIntCell (cells.getD 3 "") })

/-- Model of `_last_timestamp_in_file` for one typed file: `None` when
the file does not exist or the frame is empty, else the last row of the
timestamp column coerced to a datetime (`none` for `NaT`). -/
def lastTs {α : Type} (key : α → Option Nat) (file : Option (List α)) :
    Option Nat :=
  match file with
  | none => none
  | some rows =>
    match rows.getLast? with
    | none => none
    | some r => key r

/-- Ordering used by `sort_values` on the timestamp column: `NaT`
(modelled `none`) sorts last (`na_position="last"`). -/
def tsLe : Option Nat → Option Nat → Bool
  | some a, some b => a ≤ b
  | some _, none => true
  | none, some _ => false
  | none, none => true

/-- Model of `drop_duplicates(subset=[key], keep="last")`: a row is kept
exactly when no later row has the same key (pandas compares `NaT` values
as equal here). -/
def dedupKeepLast {α β : Type} [DecidableEq β] (key : α → β) :
    List α → List α
  | [] => []
  | a :: l =>
    if l.any fun b => key b = key a then dedupKeepLast key l
    else a :: dedupKeepLast key l

/-- What any `sort_values` backend guarantees: the output is a
permutation of the input ordered by the key (missing keys last). The
default `kind="quicksort"` is deterministic but its tie order on equal
keys is unspecified, so nothing more is assumed. -/
def ValidSort {α : Type} (key : α → Option Nat)
    (sort : List α → List α) : Prop :=
  ∀ l : List α, List.Perm l (sort l) ∧
    (sort l).Pairwise (fun a b => tsLe (key a) (key b) = true)

/-- A stable comparison sort by the timestamp key: one admissible
`sort_values` backend (the tie order `kind="mergesort"` would give),
usable to instantiate the sort parameter concretely. -/
def stableSortByTs {α : Type} (key : α → Option Nat) (l : List α) :
    List α :=
  List.insertionSort (fun a b => tsLe (key a) (key b) = true) l

/-- The `sort_values` backend of a run, one function per row shape. -/
structure SortValues where
  onOhlc : List OhlcRow → List OhlcRow
  onTick : List TickRow → List TickRow

/-- Both components of a backend are admissible sorts. -/
def ValidSortValues (sv : SortValues) : Prop :=
  ValidSort (fun x => x.datetime) sv.onOhlc ∧
  ValidSort (fun x => x.utc) sv.onTick

/-- The all-stable backend. -/
def stableSortValues : SortValues :=
  ⟨stableSortByTs (fun x => x.datetime), stableSortByTs (fun x => x.utc)⟩

/-- An admissible backend that orders the two equal-timestamp rows of
the C5 overlap scenario with the fetched row first (quicksort fixes no
tie order, so this output is allowed) and sorts stably elsewhere. -/
def swapTieSort (l : List OhlcRow) : List OhlcRow :=
  if l = [⟨some 5, 1, 1, 1, 7, 0, 0⟩, ⟨some 5, 1, 1, 1, 9, 0, 0⟩] then
    [⟨some 5, 1, 1, 1, 9, 0, 0⟩, ⟨some 5, 1, 1, 1, 7, 0, 0⟩]
  else stableSortByTs (fun x => x.datetime) l

/-- The merge step of `download`: concatenate existing and new rows,
sort by the timestamp column with the given backend, drop duplicate
timestamps keeping the last occurrence in the sorted order. -/
def mergeRows {α : Type} (sort : List α → List α)
    (key : α → Option Nat) (existing_df new_df : List α) : List α :=
  dedupKeepLast key (sort (existing_df ++ new_df))

/-- The body of `download` for one typed file slot: resume-point
computation from the last stored timestamp, the idempotence
short-circuit, the one-or-two-GET remote delivery of
`call_history_api` on the minute-floored range, the parse, the merge
with an existing file, and the conditional save. Returns the result (or
the propagated exception), the new file contents, and the list of GETs
issued. -/
def downloadCore {α : Type} (key : α → Option Nat)
    (sort : List α → List α)
    (parse : List (List String) → Except HistErr (List α))
    (rem : Remote) (file : Option (List α))
    (segment token tfName : String) (step : Nat)
    (from_dt to_dt : Nat) (save : Bool) :
    Except HistErr (List α) × Option (List α) × List HistReq :=
  let fetch : Nat → Except HistErr (List α) × Option (List α) × List HistReq :=
    fun from_dt_api =>
      let req : HistReq :=
        ⟨segment, token, tfName, truncMinute from_dt_api, truncMinute to_dt⟩
      let res := call_history_api rem req
      match res.1 with
      | .error e => (.error e, file, res.2)
      | .ok body =>
        match parse body with
        | .error e => (.error e, file, res.2)
        | .ok new_df =>
          match file with
          | some existing_df =>
            let result_df := mergeRows sort key existing_df new_df
            (.ok result_df, if save then some result_df else file, res.2)
          | none =>
            (.ok new_df, if save then some new_df else file, res.2)
  match lastTs key file with
  | some last_ts =>
    let new_from := last_ts + step
    if to_dt ≤ new_from then
      (.ok (file.getD []), file, [])
    else
      fetch new_from
  | none => fetch from_dt

/-- Model of `HistoricalDataManager.download`: dispatch on the timeframe
to the matching file slot, resume unit, parser and row shape, exactly as
the `if timeframe in ("day", "minute")` branches of the source do. -/
def download (sv : SortValues) (rem : Remote) (st : HistState)
    (segment token : String) (tf : Timeframe) (from_dt to_dt : Nat)
    (save : Bool) :
    Except HistErr FileData × HistState × List HistReq :=
  match tf with
  | .day =>
    let c := downloadCore (fun x => x.datetime) sv.onOhlc parse_day_minute
      rem st.dayFile segment token "day" (unitStep .day) from_dt to_dt save
    (c.1.map .ohlc, { st with dayFile := c.2.1 }, c.2.2)
  | .minute =>
    let c := downloadCore (fun x => x.datetime) sv.onOhlc parse_day_minute
      rem st.minuteFile segment token "minute" (unitStep .minute)
      from_dt to_dt save
    (c.1.map .ohlc, { st with minuteFile := c.2.1 }, c.2.2)
  | .tick =>
    let c := downloadCore (fun x => x.utc) sv.onTick parse_tick
      rem st.tickFile segment token "tick" (unitStep .tick) from_dt to_dt save
    (c.1.map .tickd, { st with tickFile := c.2.1 }, c.2.2)

/-- The file slot of a timeframe, as `FileData`, defaulting to empty
rows: used to phrase "the existing dataset" in theorems. -/
def fileDataOf (st : HistState) : Timeframe → FileData
  | .day => .ohlc (st.dayFile.getD [])
  | .minute => .ohlc (st.minuteFile.getD [])
  | .tick => .tickd (st.tickFile.getD [])

/-- The last stored timestamp of the file slot a call with timeframe
`tf` consults, i.e. `_last_timestamp_in_file` at the call site. -/
def histLastTs (st : HistState) : Timeframe → Option Nat
  | .day => lastTs (fun x => x.datetime) st.dayFile
  | .minute => lastTs (fun x => x.datetime) st.minuteFile
  | .tick => lastTs (fun x => x.utc) st.tickFile

/-- Calendar date of a timestamp, as `datetime.date()` compares them in
the source: the UTC day index. -/
def dateOf (ts : Nat) : Nat :=
  ts / 86400

/-- Boolean form of `last_dt.date() == now.date()` on a coerced cell;
never consulted on `NaT` in the model (the source raises there and the
surrounding handlers decide what happens). -/
def sameDate (ts : Option Nat) (now : Nat) : Bool :=
  match ts with
  | some t => dateOf t == dateOf now
  | none => false

/-- Second-to-last row of a frame, `iloc[-2]`. -/
def secondLast {α : Type} (rows : List α) : Option α :=
  rows.dropLast.getLast?

/-- Model of `HistoricalDataManager.get_previous_close`. For a present
day/minute file: empty frame yields `None`; a last row whose datetime is
`NaT` makes `last_dt.date()` raise inside the `try`, falling through to
the fallback; otherwise the previous-close rule runs on the stored rows.
For a present tick file the source returns `None` at once. With no file
(or after the fall-through) the fallback downloads the trailing ten days
of day data with `save=True` inside a `try` that turns any exception
into `None`, and applies the rule only behind the `len(df) >= 2` guard,
returning `None` otherwise. -/
def get_previous_close (sv : SortValues) (rem : Remote) (st : HistState)
    (segment token : String) (tf : Timeframe) (now : Nat) :
    Option Int × HistState × List HistReq :=
  let fallback : Option Int × HistState × List HistReq :=
    let from_dt := now - 10 * 86400
    match download sv rem st segment token .day from_dt now true with
    | (.error _, st1, reqs) => (none, st1, reqs)
    | (.ok (.tickd _), st1, reqs) => (none, st1, reqs)
    | (.ok (.ohlc df), st1, reqs) =>
      if df.isEmpty then (none, st1, reqs)
      else if 2 ≤ df.length then
        match df.getLast? with
        | none => (none, st1, reqs)
        | some lastRow =>
          match lastRow.datetime with
          | none => (none, st1, reqs)
          | some _ =>
            if sameDate lastRow.datetime now then
              (((secondLast df).map fun r => r.close), st1, reqs)
            else
              (some lastRow.close, st1, reqs)
      else (none, st1, reqs)
  let fileOpt : Option (List OhlcRow) :=
    match tf with
    | .day => st.dayFile
    | .minute => st.minuteFile
    | .tick => none
  match tf, st.tickFile with
  | .tick, some _ => (none, st, [])
  | _, _ =>
    match fileOpt with
    | some df =>
      if df.isEmpty then (none, st, [])
      else
        match df.getLast? with
        | none => (none, st, [])
        | some lastRow =>
          match lastRow.datetime with
          | none => fallback
          | some _ =>
            if sameDate lastRow.datetime now && 2 ≤ df.length then
              (((secondLast df).map fun r => r.close), st, [])
            else
              (some lastRow.close, st, [])
    | none => fallback

/-- The previous-close rule as the spec words it, for comparison with
`get_previous_close`. Modelled from the spec: if the most recent stored
point has the current date and at least two points exist, the
second-to-last close, otherwise the last close; absent with no data. -/
def specRulePreviousClose (rows : List OhlcRow) (now : Nat) : Option Int :=
  match rows.getLast? with
  | none => none
  | some lastRow =>
    if sameDate lastRow.datetime now && 2 ≤ rows.length then
      (secondLast rows).map fun r => r.close
    else
      some lastRow.close

/-- The state written by the assignment block of
`login_step2_with_otp` before the credential check. -/
def step2Assigned (st : SessionState) (now : Nat) (d : Step2Response) :
    SessionState :=
  { st with
    api_session_key := d.api_session_key
    susertoken := d.susertoken
    uid := pyOr d.uid d.actid
    last_login_ts := some now }

/-- The last element of a list as a zero-or-one-element list: the rows a
key contributes to a frame after `drop_duplicates(keep="last")`. -/
def lastOnly {α : Type} (l : List α) : List α :=
  match l.getLast? with
  | none => []
  | some a => [a]

/-! Theorems. -/

theorem strTruthy_none : strTruthy none = false := rfl

theorem login_step2_eq_statbad (st : SessionState) (now : Nat)
    (d : Step2Response) (h : (pyLower (d.stat.getD "") != "ok") = true) :
    login_step2_with_otp st now (.ok d) =
      (st, some ⟨"Login step 2 not OK"⟩) := by
  simp [login_step2_with_otp, h]

theorem login_step2_eq_missing (st : SessionState) (now : Nat)
    (d : Step2Response) (h : (pyLower (d.stat.getD "") != "ok") = false)
    (hm : (!strTruthy d.api_session_key || !strTruthy d.susertoken) = true) :
    login_step2_with_otp st now (.ok d) =
      (step2Assigned st now d,
        some ⟨"Missing api_session_key or susertoken in token response"⟩) := by
  simp [login_step2_with_otp, h, hm, step2Assigned]

theorem login_step2_eq_success (st : SessionState) (now : Nat)
    (d : Step2Response) (h : (pyLower (d.stat.getD "") != "ok") = false)
    (hm : (!strTruthy d.api_session_key || !strTruthy d.susertoken) = false) :
    login_step2_with_otp st now (.ok d) =
      ({ step2Assigned st now d with
          persist_file := .good
            ⟨d.api_session_key, d.susertoken, pyOr d.uid d.actid, some now⟩ },
        none) := by
  simp [login_step2_with_otp, h, hm, step2Assigned]

/-- C1: the claim asserts that a raising `login_step2_with_otp` leaves
the in-memory credentials and the persisted record exactly as before the
call. The persisted record is indeed untouched on every raise, and a
transport failure or a non-ok `stat` raises before any assignment; but
an ok response missing a credential raises only after the four fields
have been overwritten. This theorem states the amended behaviour: the
persisted record is unchanged on any raise; the whole state is unchanged
on a transport failure or non-ok `stat`; a raise on an ok-`stat`
response never leaves the session logged in; a normal return is logged
in with the four fields persisted. -/
theorem c1_login_step2_effects (st : SessionState) (now : Nat)
    (resp : Except HttpFailure Step2Response) :
    ((login_step2_with_otp st now resp).2.isSome = true →
      (login_step2_with_otp st now resp).1.persist_file = st.persist_file)
    ∧ (∀ e, resp = .error e → (login_step2_with_otp st now resp).1 = st)
    ∧ (∀ d, resp = .ok d → (pyLower (d.stat.getD "") != "ok") = true →
        (login_step2_with_otp st now resp).1 = st)
    ∧ (∀ d, resp = .ok d → (pyLower (d.stat.getD "") != "ok") = false →
        (login_step2_with_otp st now resp).2.isSome = true →
        is_logged_in (login_step2_with_otp st now resp).1 = false)
    ∧ ((login_step2_with_otp st now resp).2 = none →
        is_logged_in (login_step2_with_otp st now resp).1 = true ∧
        (login_step2_with_otp st now resp).1.persist_file =
          .good ⟨(login_step2_with_otp st now resp).1.api_session_key,
                 (login_step2_with_otp st now resp).1.susertoken,
                 (login_step2_with_otp st now resp).1.uid,
                 (login_step2_with_otp st now resp).1.last_login_ts⟩) := by
  cases resp with
  | error e =>
    refine ⟨fun _ => rfl, fun e h => rfl, fun d h => by simp at h,
      fun d h => by simp at h, fun h => by simp [login_step2_with_otp] at h⟩
  | ok d =>
    by_cases hstat : (pyLower (d.stat.getD "") != "ok") = true
    · rw [login_step2_eq_statbad st now d hstat]
      exact ⟨fun _ => rfl, fun e h => by simp at h,
        fun d' h _ => by simp, fun d' h hs => by cases h; simp [hstat] at hs,
        fun h => by simp at h⟩
    · rw [Bool.not_eq_true] at hstat
      by_cases hmiss :
          (!strTruthy d.api_session_key || !strTruthy d.susertoken) = true
      · rw [login_step2_eq_missing st now d hstat hmiss]
        refine ⟨fun _ => rfl, fun e h => by simp at h, fun d' h hs => ?_,
          fun d' h _ _ => ?_, fun h => by simp at h⟩
        · cases h; rw [hstat] at hs; simp at hs
        · cases h
          rcases Bool.or_eq_true_iff.mp hmiss with hk | hk <;>
            simp_all [is_logged_in, step2Assigned, Bool.not_eq_true']
      · rw [Bool.not_eq_true] at hmiss
        rw [login_step2_eq_success st now d hstat hmiss]
        rcases Bool.or_eq_false_iff.mp hmiss with ⟨h1, h2⟩
        rw [Bool.not_eq_false'] at h1 h2
        exact ⟨fun hs => by simp at hs, fun e h => by simp at h,
          fun d' h hs => by cases h; rw [hstat] at hs; simp at hs,
          fun d' h _ hs => by simp at hs,
          fun _ => ⟨by simp [is_logged_in, step2Assigned, h1, h2], rfl⟩⟩

theorem c1_login_step2_effects_witness :
    (login_step2_with_otp ⟨none, none, none, none, .absent⟩ 7
        (.ok ⟨some "OK", some "K", some "U", some "1", none⟩)).2 = none ∧
    is_logged_in (login_step2_with_otp ⟨none, none, none, none, .absent⟩ 7
        (.ok ⟨some "OK", some "K", some "U", some "1", none⟩)).1 = true := by
  refine ⟨by decide, ?_⟩
  exact ((c1_login_step2_effects ⟨none, none, none, none, .absent⟩ 7
    (.ok ⟨some "OK", some "K", some "U", some "1", none⟩)).2.2.2.2 (by decide)).1

/-- C1 counterexample: a previously authenticated session, and an ok
response that carries `susertoken` but no `api_session_key`. The call
raises, yet both in-memory credential fields differ from their values
before the call (the persisted record alone is untouched). -/
theorem c1_counterexample :
    (login_step2_with_otp
        ⟨some "K0", some "U0", some "1", some 5,
          .good ⟨some "K0", some "U0", some "1", some 5⟩⟩ 7
        (.ok ⟨some "OK", none, some "U1", none, none⟩)).2.isSome = true
    ∧ (login_step2_with_otp
        ⟨some "K0", some "U0", some "1", some 5,
          .good ⟨some "K0", some "U0", some "1", some 5⟩⟩ 7
        (.ok ⟨some "OK", none, some "U1", none, none⟩)).1.api_session_key
        ≠ some "K0"
    ∧ (login_step2_with_otp
        ⟨some "K0", some "U0", some "1", some 5,
          .good ⟨some "K0", some "U0", some "1", some 5⟩⟩ 7
        (.ok ⟨some "OK", none, some "U1", none, none⟩)).1.susertoken
        ≠ some "U0" := by
  decide

/-- C4: the claim asserts both accessors raise unless both credentials
are set. In the code each accessor checks only its own credential:
`get_auth_headers` requires `api_session_key` alone and `get_ws_token`
requires `susertoken` alone. This theorem states that amended gating
exactly. -/
theorem c4_auth_gating (st : SessionState) :
    (strTruthy st.api_session_key = true →
      get_auth_headers st = .ok [("Authorization", st.api_session_key.getD "")])
    ∧ (strTruthy st.api_session_key = false →
      get_auth_headers st = .error ⟨"No api_session_key - please login first"⟩)
    ∧ (strTruthy st.susertoken = true →
      get_ws_token st = .ok (st.susertoken.getD ""))
    ∧ (strTruthy st.susertoken = false →
      get_ws_token st = .error ⟨"No susertoken - please login first"⟩) := by
  refine ⟨fun h => ?_, fun h => ?_, fun h => ?_, fun h => ?_⟩ <;>
    simp [get_auth_headers, get_ws_token, h]

theorem c4_auth_gating_witness :
    get_auth_headers ⟨some "K", some "U", none, none, .absent⟩ =
      .ok [("Authorization", "K")] ∧
    get_ws_token ⟨some "K", some "U", none, none, .absent⟩ = .ok "U" := by
  exact ⟨(c4_auth_gating ⟨some "K", some "U", none, none, .absent⟩).1 (by decide),
    (c4_auth_gating ⟨some "K", some "U", none, none, .absent⟩).2.2.1 (by decide)⟩

/-- C4 counterexample: a state with `api_session_key` set and
`susertoken` unset is not logged in, yet `get_auth_headers` succeeds
instead of raising `AuthenticationError`. -/
theorem c4_counterexample :
    is_logged_in ⟨some "K", none, none, none, .absent⟩ = false ∧
    get_auth_headers ⟨some "K", none, none, none, .absent⟩ =
      .ok [("Authorization", "K")] := by
  exact ⟨rfl, rfl⟩

/-- C7: the claim asserts every operation preserves the both-or-neither
credential invariant. `is_logged_in` is indeed exactly "both non-empty",
`logout` re-establishes the invariant, and a successful step-2 login
does; but `_load_session` copies whatever fields the record holds, so it
preserves the invariant only when the persisted record itself satisfies
it (a raising step-2 call with a one-credential response likewise breaks
it, see the C1 counterexample). This theorem states the amended claim. -/
theorem c7_cred_invariant (st : SessionState) (now : Nat)
    (resp : Except HttpFailure Step2Response) :
    (is_logged_in st =
      (strTruthy st.api_session_key && strTruthy st.susertoken))
    ∧ credInvariant (logout st)
    ∧ is_logged_in (logout st) = false
    ∧ ((login_step2_with_otp st now resp).2 = none →
        credInvariant (login_step2_with_otp st now resp).1)
    ∧ (credInvariant st → recordInvariant st.persist_file →
        credInvariant (load_session st)) := by
  refine ⟨rfl, rfl, rfl, fun hok => ?_, fun hst hrec => ?_⟩
  · cases resp with
    | error e => simp [login_step2_with_otp] at hok
    | ok d =>
      by_cases hstat : (pyLower (d.stat.getD "") != "ok") = true
      · simp [login_step2_with_otp, hstat] at hok
      · by_cases hmiss :
          (!strTruthy d.api_session_key ||
            !strTruthy (d : Step2Response).susertoken) = true
        · simp [login_step2_with_otp, hstat, hmiss] at hok
        · rcases Bool.or_eq_false_iff.mp (Bool.not_eq_true _ |>.mp hmiss)
            with ⟨h1, h2⟩
          simp only [Bool.not_eq_true] at hstat
          simp [login_step2_with_otp, hstat, hmiss, credInvariant,
            Bool.not_eq_false' .. |>.mp h1, Bool.not_eq_false' .. |>.mp h2]
  · cases hpf : st.persist_file with
    | absent => simpa [load_session, hpf] using hst
    | corrupt => simpa [load_session, hpf] using hst
    | good r =>
      simp [recordInvariant, hpf] at hrec
      simpa [load_session, hpf, credInvariant] using hrec

theorem c7_cred_invariant_witness :
    credInvariant (load_session ⟨some "K", some "U", none, none, .absent⟩) := by
  exact (c7_cred_invariant ⟨some "K", some "U", none, none, .absent⟩ 0
    (.error ⟨500, ""⟩)).2.2.2.2 rfl trivial

/-- C7 counterexample: loading a persisted record that holds only
`api_session_key` takes an empty session, which satisfies the invariant,
to a state with the key set and the token absent — the startup load does
not preserve the both-or-neither invariant. -/
theorem c7_counterexample :
    credInvariant ⟨none, none, none, none, .good ⟨some "K", none, none, none⟩⟩
    ∧ ¬ credInvariant
        (load_session
          ⟨none, none, none, none, .good ⟨some "K", none, none, none⟩⟩) := by
  constructor
  · rfl
  · intro h
    simp only [load_session, credInvariant] at h
    exact absurd h (by decide)

theorem tsLe_refl (a : Option Nat) : tsLe a a = true := by
  cases a <;> simp [tsLe]

theorem tsLe_total (a b : Option Nat) : tsLe a b = true ∨ tsLe b a = true := by
  cases a <;> cases b <;> simp [tsLe] <;> omega

theorem tsLe_trans {a b c : Option Nat} (h1 : tsLe a b = true)
    (h2 : tsLe b c = true) : tsLe a c = true := by
  cases a <;> cases b <;> cases c <;> simp [tsLe] at h1 h2 ⊢ <;> omega

theorem lastOnly_cons_of_ne_nil {α : Type} (a : α) (l : List α)
    (h : l ≠ []) : lastOnly (a :: l) = lastOnly l := by
  rcases l with _ | ⟨b, t⟩
  · exact absurd rfl h
  · simp [lastOnly, List.getLast?_cons_cons]

theorem lastOnly_concat {α : Type} (a : α) (l : List α) :
    lastOnly (l ++ [a]) = [a] := by
  unfold lastOnly
  rw [List.getLast?_concat]

theorem filter_orderedInsert_ne {α : Type} (key : α → Option Nat)
    (k : Option Nat) (a : α) (l : List α) (ha : ¬ key a = k) :
    (List.orderedInsert (fun x y => tsLe (key x) (key y) = true) a l).filter
        (fun x => key x = k) =
      l.filter (fun x => key x = k) := by
  induction l with
  | nil => simp [List.orderedInsert, ha]
  | cons b t ih =>
    by_cases hab : tsLe (key a) (key b) = true
    · rw [List.orderedInsert, if_pos hab]
      simp [List.filter_cons, ha]
    · rw [List.orderedInsert, if_neg hab]
      by_cases hb : key b = k <;> simp [List.filter_cons, hb, ih]

theorem filter_orderedInsert_eq {α : Type} (key : α → Option Nat)
    (k : Option Nat) (a : α) (l : List α) (ha : key a = k) :
    (List.orderedInsert (fun x y => tsLe (key x) (key y) = true) a l).filter
        (fun x => key x = k) =
      a :: l.filter (fun x => key x = k) := by
  induction l with
  | nil => simp [List.orderedInsert, ha]
  | cons b t ih =>
    by_cases hab : tsLe (key a) (key b) = true
    · rw [List.orderedInsert, if_pos hab]
      simp [List.filter_cons, ha]
    · have hb : ¬ key b = k := by
        intro hb
        refine hab ?_
        rw [ha, hb]
        exact tsLe_refl k
      rw [List.orderedInsert, if_neg hab]
      simp [List.filter_cons, hb, ih]

theorem filter_insertionSort {α : Type} (key : α → Option Nat)
    (k : Option Nat) (l : List α) :
    (List.insertionSort (fun x y => tsLe (key x) (key y) = true) l).filter
        (fun x => key x = k) =
      l.filter (fun x => key x = k) := by
  induction l with
  | nil => rfl
  | cons a t ih =>
    rw [List.insertionSort]
    by_cases ha : key a = k
    · rw [filter_orderedInsert_eq key k a _ ha, ih, List.filter_cons]
      simp [ha]
    · rw [filter_orderedInsert_ne key k a _ ha, ih, List.filter_cons]
      simp [ha]

theorem filter_dedupKeepLast {α β : Type} [DecidableEq β] (key : α → β)
    (k : β) (l : List α) :
    (dedupKeepLast key l).filter (fun x => key x = k) =
      lastOnly (l.filter (fun x => key x = k)) := by
  induction l with
  | nil => rfl
  | cons a t ih =>
    by_cases hany : (t.any fun b => key b = key a) = true
    · rw [dedupKeepLast, if_pos hany, List.filter_cons]
      by_cases ha : key a = k
      · obtain ⟨b, hb, hbk⟩ := by
          simpa using List.any_eq_true.mp hany
        have hmem : b ∈ t.filter (fun x => key x = k) :=
          List.mem_filter.mpr ⟨hb, by simp [hbk, ha]⟩
        have hne : t.filter (fun x => key x = k) ≠ [] := by
          intro h0
          rw [h0] at hmem
          exact absurd hmem (List.not_mem_nil b)
        rw [if_pos (by simp [ha]), ih, lastOnly_cons_of_ne_nil _ _ hne]
      · rw [if_neg (by simp [ha])]
        exact ih
    · rw [dedupKeepLast, if_neg hany, List.filter_cons, List.filter_cons]
      have hall : ∀ x ∈ t, ¬ key x = key a := by
        intro x hx hxa
        exact hany (List.any_eq_true.mpr ⟨x, hx, by simp [hxa]⟩)
      by_cases ha : key a = k
      · have hfil : t.filter (fun x => key x = k) = [] := by
          rw [List.filter_eq_nil_iff]
          intro b hb
          simp only [decide_eq_true_eq]
          intro hbk
          exact hall b hb (hbk.trans ha.symm)
        have hfil2 : (dedupKeepLast key t).filter (fun x => key x = k) = [] := by
          rw [ih, hfil]
          rfl
        rw [if_pos (by simp [ha]), if_pos (by simp [ha]), hfil, hfil2]
        rfl
      · rw [if_neg (by simp [ha]), if_neg (by simp [ha])]
        exact ih

theorem dedupKeepLast_sublist {α β : Type} [DecidableEq β] (key : α → β)
    (l : List α) : List.Sublist (dedupKeepLast key l) l := by
  induction l with
  | nil => exact List.Sublist.refl []
  | cons a t ih =>
    by_cases h : (t.any fun b => key b = key a) = true
    · rw [dedupKeepLast, if_pos h]
      exact ih.cons a
    · rw [dedupKeepLast, if_neg h]
      exact ih.cons₂ a

theorem dedupKeepLast_pairwise_ne {α β : Type} [DecidableEq β]
    (key : α → β) (l : List α) :
    (dedupKeepLast key l).Pairwise (fun a b => key a ≠ key b) := by
  induction l with
  | nil => exact List.Pairwise.nil
  | cons a t ih =>
    by_cases h : (t.any fun b => key b = key a) = true
    · rw [dedupKeepLast, if_pos h]
      exact ih
    · rw [dedupKeepLast, if_neg h]
      refine List.Pairwise.cons ?_ ih
      intro b hb hk
      have hbt : b ∈ t := (dedupKeepLast_sublist key t).subset hb
      exact h (List.any_eq_true.mpr ⟨b, hbt, by simp [hk.symm]⟩)

theorem stableSortByTs_valid {α : Type} (key : α → Option Nat) :
    ValidSort key (stableSortByTs key) := by
  intro l
  haveI : IsTotal α (fun a b => tsLe (key a) (key b) = true) :=
    ⟨fun a b => tsLe_total (key a) (key b)⟩
  haveI : IsTrans α (fun a b => tsLe (key a) (key b) = true) :=
    ⟨fun a b c hab hbc => tsLe_trans hab hbc⟩
  exact ⟨(List.perm_insertionSort _ l).symm, List.sorted_insertionSort _ l⟩

theorem stableSortValues_valid : ValidSortValues stableSortValues :=
  ⟨stableSortByTs_valid _, stableSortByTs_valid _⟩

theorem mergeRows_sorted {α : Type} (sort : List α → List α)
    (key : α → Option Nat) (hv : ValidSort key sort) (ex nw : List α) :
    (mergeRows sort key ex nw).Pairwise
      (fun a b => tsLe (key a) (key b) = true) :=
  List.Pairwise.sublist (dedupKeepLast_sublist key _) ((hv (ex ++ nw)).2)

theorem mergeRows_strict {α : Type} (sort : List α → List α)
    (key : α → Option Nat) (hv : ValidSort key sort) (ex nw : List α)
    (hts : ∀ x ∈ mergeRows sort key ex nw, (key x).isSome = true) :
    (mergeRows sort key ex nw).Pairwise
      (fun a b => (key a).getD 0 < (key b).getD 0)
    ∧ ((mergeRows sort key ex nw).map key).Nodup := by
  have hs := mergeRows_sorted sort key hv ex nw
  have hne := dedupKeepLast_pairwise_ne key (sort (ex ++ nw))
  constructor
  · refine List.Pairwise.imp_of_mem ?_ (hs.and hne)
    intro a b ha hb hab
    obtain ⟨hle, hnab⟩ := hab
    have hsa := hts a ha
    have hsb := hts b hb
    rcases ka : key a with _ | x
    · rw [ka] at hsa
      simp at hsa
    rcases kb : key b with _ | y
    · rw [kb] at hsb
      simp at hsb
    rw [ka, kb] at hle hnab
    simp only [tsLe, decide_eq_true_eq] at hle
    simp only [Option.getD_some, ka, kb]
    have : x ≠ y := fun hxy => hnab (by rw [hxy])
    omega
  · exact List.pairwise_map.mpr hne

theorem call_history_api_reqs (rem : Remote) (req : HistReq) :
    (call_history_api rem req).2 = [req] ∨
    (call_history_api rem req).2 = [req, req] := by
  rcases hc : rem.clientGet req with _ | ⟨status, body⟩ | body
  · right
    by_cases h2 : ((rem.fallbackGet req).1 == 200) = true <;>
      simp [call_history_api, hc, h2]
  · by_cases h2 : (status == 200) = true
    · left
      simp [call_history_api, hc, h2]
    · right
      by_cases h3 : ((rem.fallbackGet req).1 == 200) = true <;>
        simp [call_history_api, hc, h2, h3]
  · left
    simp [call_history_api, hc]

theorem call_history_api_reqs_shape (rem : Remote) (req : HistReq) :
    (∀ r ∈ (call_history_api rem req).2, r = req) ∧
    1 ≤ (call_history_api rem req).2.length ∧
    (call_history_api rem req).2.length ≤ 2 := by
  rcases call_history_api_reqs rem req with h | h <;> rw [h] <;> simp

theorem downloadCore_shortcircuit {α : Type} (key : α → Option Nat)
    (sort : List α → List α)
    (parse : List (List String) → Except HistErr (List α)) (rem : Remote)
    (file : Option (List α)) (segment token tfName : String)
    (step from_dt to_dt : Nat) (save : Bool) (T : Nat)
    (hT : lastTs key file = some T) (h : to_dt ≤ T + step) :
    downloadCore key sort parse rem file segment token tfName step
        from_dt to_dt save = (.ok (file.getD []), file, []) := by
  simp [downloadCore, hT, h]

theorem downloadCore_reqs_fetch {α : Type} (key : α → Option Nat)
    (sort : List α → List α)
    (parse : List (List String) → Except HistErr (List α)) (rem : Remote)
    (file : Option (List α)) (segment token tfName : String)
    (step from_dt to_dt : Nat) (save : Bool) (T : Nat)
    (hT : lastTs key file = some T) (h : ¬ to_dt ≤ T + step) :
    (downloadCore key sort parse rem file segment token tfName step
        from_dt to_dt save).2.2 =
      (call_history_api rem
        ⟨segment, token, tfName, truncMinute (T + step),
          truncMinute to_dt⟩).2 := by
  simp only [downloadCore, hT, h, if_false]
  rcases hr : (call_history_api rem
      ⟨segment, token, tfName, truncMinute (T + step), truncMinute to_dt⟩).1
    with e | body
  · simp [hr]
  · rcases hp : parse body with e | new_df
    · simp [hr, hp]
    · rcases file with _ | ex <;> simp [hr, hp]

theorem downloadCore_error_file {α : Type} (key : α → Option Nat)
    (sort : List α → List α)
    (parse : List (List String) → Except HistErr (List α)) (rem : Remote)
    (file : Option (List α)) (segment token tfName : String)
    (step from_dt to_dt : Nat) (save : Bool) (e : HistErr)
    (h : (downloadCore key sort parse rem file segment token tfName step
        from_dt to_dt save).1 = .error e) :
    (downloadCore key sort parse rem file segment token tfName step
        from_dt to_dt save).2.1 = file := by
  unfold downloadCore at h ⊢
  rcases hlast : lastTs key file with _ | T <;> simp only [hlast] at h ⊢
  case some =>
    by_cases hto : to_dt ≤ T + step
    · simp [hto]
    · simp only [hto, if_false] at h ⊢
      rcases hr : (call_history_api rem
          ⟨segment, token, tfName, truncMinute (T + step),
            truncMinute to_dt⟩).1 with e' | body
      · simp [hr]
      · rcases hp : parse body with e' | new_df
        · simp [hr, hp]
        · rcases file with _ | ex <;> simp_all [hr, hp]
  case none =>
    rcases hr : (call_history_api rem
        ⟨segment, token, tfName, truncMinute from_dt, truncMinute to_dt⟩).1
      with e' | body
    · simp [hr]
    · rcases hp : parse body with e' | new_df
      · simp [hr, hp]
      · rcases file with _ | ex <;> simp_all [hr, hp]

theorem downloadCore_ok_merge {α : Type} (key : α → Option Nat)
    (sort : List α → List α)
    (parse : List (List String) → Except HistErr (List α)) (rem : Remote)
    (ex : List α) (segment token tfName : String)
    (step from_dt to_dt : Nat) (rows : List α)
    (hok : (downloadCore key sort parse rem (some ex) segment token tfName
        step from_dt to_dt true).1 = .ok rows)
    (hreq : (downloadCore key sort parse rem (some ex) segment token tfName
        step from_dt to_dt true).2.2 ≠ []) :
    (∃ nw, rows = mergeRows sort key ex nw) ∧
    (downloadCore key sort parse rem (some ex) segment token tfName step
        from_dt to_dt true).2.1 = some rows := by
  unfold downloadCore at hok hreq ⊢
  rcases hlast : lastTs key (some ex) with _ | T <;>
    simp only [hlast] at hok hreq ⊢
  case some =>
    by_cases hto : to_dt ≤ T + step
    · simp [hto] at hreq
    · simp only [hto, if_false] at hok hreq ⊢
      rcases hr : (call_history_api rem
          ⟨segment, token, tfName, truncMinute (T + step),
            truncMinute to_dt⟩).1 with e | body <;>
        simp only [hr] at hok hreq ⊢
      · simp at hok
      · rcases hp : parse body with e | new_df <;>
          simp only [hp] at hok hreq ⊢
        · simp at hok
        · simp only [Except.ok.injEq] at hok
          exact ⟨⟨new_df, hok.symm⟩, by simp [hok]⟩
  case none =>
    rcases hr : (call_history_api rem
        ⟨segment, token, tfName, truncMinute from_dt, truncMinute to_dt⟩).1
      with e | body <;> simp only [hr] at hok hreq ⊢
    · simp at hok
    · rcases hp : parse body with e | new_df <;>
        simp only [hp] at hok hreq ⊢
      · simp at hok
      · simp only [Except.ok.injEq] at hok
        exact ⟨⟨new_df, hok.symm⟩, by simp [hok]⟩

theorem downloadCore_merge_invariant {α : Type} (key : α → Option Nat)
    (sort : List α → List α)
    (parse : List (List String) → Except HistErr (List α)) (rem : Remote)
    (ex rows : List α) (segment token tfName : String)
    (step from_dt to_dt : Nat) (hv : ValidSort key sort)
    (hok : (downloadCore key sort parse rem (some ex) segment token tfName
        step from_dt to_dt true).1 = .ok rows)
    (hreq : (downloadCore key sort parse rem (some ex) segment token tfName
        step from_dt to_dt true).2.2 ≠ [])
    (hts : ∀ x ∈ rows, (key x).isSome = true) :
    (downloadCore key sort parse rem (some ex) segment token tfName step
        from_dt to_dt true).2.1 = some rows
    ∧ rows.Pairwise (fun a b => (key a).getD 0 < (key b).getD 0)
    ∧ (rows.map key).Nodup := by
  obtain ⟨⟨nw, hrows⟩, hfile⟩ := downloadCore_ok_merge key sort parse rem ex
    segment token tfName step from_dt to_dt rows hok hreq
  refine ⟨hfile, ?_⟩
  rw [hrows] at hts ⊢
  exact mergeRows_strict sort key hv ex nw hts

/-- C2: the claim as stated fails in two ways. First, `_fmt_dt_for_api`
transmits `ddMMyyyyHHmm`, so the wire from-date is the minute floor of
the resume point — for tick, `T + 1s` truncates back into the minute of
`T` (it can even precede `T`), not to `T + 1s`. Second,
`_call_history_api` tries `api_client.get` and falls back to a direct
`requests.get` whenever that attempt raises or carries a non-200
status; with the shipped `APIClient`, whose `get` returns `r.json()`
and therefore raises on every CSV body, a successful fetch issues two
GETs. Amended: the resume point is `T` plus one unit of the timeframe;
when it reaches `rangeEnd` no request is issued and the existing
dataset is returned with the state unchanged; otherwise every issued
request carries from-date `truncMinute(resume point)` — never the
callers `rangeStart` — and one or two such requests to the same URL are
issued. -/
theorem c2_resume_point (sv : SortValues) (rem : Remote) (st : HistState)
    (segment token : String) (tf : Timeframe) (from_dt to_dt : Nat)
    (save : Bool) (T : Nat) (hT : histLastTs st tf = some T) :
    (to_dt ≤ T + unitStep tf →
      download sv rem st segment token tf from_dt to_dt save =
        (.ok (fileDataOf st tf), st, []))
    ∧ (¬ to_dt ≤ T + unitStep tf →
      (∀ r ∈ (download sv rem st segment token tf from_dt to_dt save).2.2,
        r = ⟨segment, token, tf.name,
          truncMinute (T + unitStep tf), truncMinute to_dt⟩)
      ∧ 1 ≤ (download sv rem st segment token tf from_dt to_dt save).2.2.length
      ∧ (download sv rem st segment token tf
          from_dt to_dt save).2.2.length ≤ 2) := by
  cases tf with
  | day =>
    refine ⟨fun h => ?_, fun h => ?_⟩
    · unfold download
      rw [downloadCore_shortcircuit _ _ _ _ _ _ _ _ _ _ _ _ T hT h]
      simp [fileDataOf, Except.map]
    · have hreqs : (download sv rem st segment token .day
          from_dt to_dt save).2.2 =
          (call_history_api rem ⟨segment, token, "day",
            truncMinute (T + unitStep .day), truncMinute to_dt⟩).2 :=
        downloadCore_reqs_fetch _ _ _ _ _ _ _ _ _ _ _ _ T hT h
      simp only [Timeframe.name]
      rw [hreqs]
      exact call_history_api_reqs_shape rem _
  | minute =>
    refine ⟨fun h => ?_, fun h => ?_⟩
    · unfold download
      rw [downloadCore_shortcircuit _ _ _ _ _ _ _ _ _ _ _ _ T hT h]
      simp [fileDataOf, Except.map]
    · have hreqs : (download sv rem st segment token .minute
          from_dt to_dt save).2.2 =
          (call_history_api rem ⟨segment, token, "minute",
            truncMinute (T + unitStep .minute), truncMinute to_dt⟩).2 :=
        downloadCore_reqs_fetch _ _ _ _ _ _ _ _ _ _ _ _ T hT h
      simp only [Timeframe.name]
      rw [hreqs]
      exact call_history_api_reqs_shape rem _
  | tick =>
    refine ⟨fun h => ?_, fun h => ?_⟩
    · unfold download
      rw [downloadCore_shortcircuit _ _ _ _ _ _ _ _ _ _ _ _ T hT h]
      simp [fileDataOf, Except.map]
    · have hreqs : (download sv rem st segment token .tick
          from_dt to_dt save).2.2 =
          (call_history_api rem ⟨segment, token, "tick",
            truncMinute (T + unitStep .tick), truncMinute to_dt⟩).2 :=
        downloadCore_reqs_fetch _ _ _ _ _ _ _ _ _ _ _ _ T hT h
      simp only [Timeframe.name]
      rw [hreqs]
      exact call_history_api_reqs_shape rem _

theorem c2_resume_point_witness :
    (∀ r ∈ (download stableSortValues
        ⟨fun _ => .raised, fun _ => (200, [["60", "5", "1", "0"]])⟩
        ⟨none, none, some [⟨some 0, 1, 1, 1⟩]⟩
        "NSE" "1" .tick 0 120 true).2.2,
      r = ⟨"NSE", "1", "tick", 0, 120⟩)
    ∧ 1 ≤ (download stableSortValues
        ⟨fun _ => .raised, fun _ => (200, [["60", "5", "1", "0"]])⟩
        ⟨none, none, some [⟨some 0, 1, 1, 1⟩]⟩
        "NSE" "1" .tick 0 120 true).2.2.length
    ∧ (download stableSortValues
        ⟨fun _ => .raised, fun _ => (200, [["60", "5", "1", "0"]])⟩
        ⟨none, none, some [⟨some 0, 1, 1, 1⟩]⟩
        "NSE" "1" .tick 0 120 true).2.2.length ≤ 2 := by
  exact (c2_resume_point stableSortValues
    ⟨fun _ => .raised, fun _ => (200, [["60", "5", "1", "0"]])⟩
    ⟨none, none, some [⟨some 0, 1, 1, 1⟩]⟩
    "NSE" "1" .tick 0 120 true 0 rfl).2 (by decide)

/-- C2 counterexample: tick resume with stored last timestamp 0. The
resume point is second 1, but the wire carries its minute floor 0, and
the raising client (as the shipped APIClient, which parses CSV with
r.json and raises) forces the fallback GET: the fetch issues two
requests, neither with from-date equal to the resume point. -/
theorem c2_counterexample :
    (download stableSortValues
        ⟨fun _ => .raised, fun _ => (200, [["60", "5", "1", "0"]])⟩
        ⟨none, none, some [⟨some 0, 1, 1, 1⟩]⟩
        "NSE" "1" .tick 0 120 true).2.2 =
      [⟨"NSE", "1", "tick", 0, 120⟩, ⟨"NSE", "1", "tick", 0, 120⟩]
    ∧ ([⟨"NSE", "1", "tick", 0, 120⟩,
        ⟨"NSE", "1", "tick", 0, 120⟩] : List HistReq).length ≠ 1
    ∧ (⟨"NSE", "1", "tick", 0, 120⟩ : HistReq).fromTs ≠ 0 + unitStep .tick := by
  refine ⟨by rfl, by decide, by decide⟩

/-- C9: a `download` that fails — transport failure or non-200 status
on both delivery attempts, or a parse failure on the response — leaves
the local dataset files exactly as they were; the file is rewritten
only on the fully successful path. -/
theorem c9_failed_sync_preserves_file (sv : SortValues) (rem : Remote)
    (st : HistState) (segment token : String) (tf : Timeframe)
    (from_dt to_dt : Nat) (save : Bool) (e : HistErr)
    (h : (download sv rem st segment token tf from_dt to_dt save).1 =
      .error e) :
    (download sv rem st segment token tf from_dt to_dt save).2.1 = st := by
  cases tf with
  | day =>
    simp only [download] at h ⊢
    rcases he : (downloadCore (fun x => x.datetime) sv.onOhlc parse_day_minute
        rem st.dayFile segment token "day" (unitStep .day)
        from_dt to_dt save).1 with e' | v
    · have hf := downloadCore_error_file _ _ _ _ _ _ _ _ _ _ _ _ _ he
      simp [hf]
    · rw [he] at h
      simp [Except.map] at h
  | minute =>
    simp only [download] at h ⊢
    rcases he : (downloadCore (fun x => x.datetime) sv.onOhlc parse_day_minute
        rem st.minuteFile segment token "minute" (unitStep .minute)
        from_dt to_dt save).1 with e' | v
    · have hf := downloadCore_error_file _ _ _ _ _ _ _ _ _ _ _ _ _ he
      simp [hf]
    · rw [he] at h
      simp [Except.map] at h
  | tick =>
    simp only [download] at h ⊢
    rcases he : (downloadCore (fun x => x.utc) sv.onTick parse_tick
        rem st.tickFile segment token "tick" (unitStep .tick)
        from_dt to_dt save).1 with e' | v
    · have hf := downloadCore_error_file _ _ _ _ _ _ _ _ _ _ _ _ _ he
      simp [hf]
    · rw [he] at h
      simp [Except.map] at h

theorem c9_failed_sync_preserves_file_witness :
    (download stableSortValues ⟨fun _ => .raised, fun _ => (500, [])⟩
        ⟨some [⟨some 0, 1, 2, 3, 4, 5, 6⟩], none, none⟩
        "NSE" "22" .day 0 172800 true).2.1 =
      ⟨some [⟨some 0, 1, 2, 3, 4, 5, 6⟩], none, none⟩ := by
  exact c9_failed_sync_preserves_file stableSortValues
    ⟨fun _ => .raised, fun _ => (500, [])⟩
    ⟨some [⟨some 0, 1, 2, 3, 4, 5, 6⟩], none, none⟩
    "NSE" "22" .day 0 172800 true
    (.transport 500 "History API failed") rfl

/-- C10: with an existing tick dataset file, `get_previous_close` on the
tick timeframe returns `None` at once — no exception, no request, no
state change — whatever the file contains. -/
theorem c10_tick_previous_close (sv : SortValues) (rem : Remote)
    (st : HistState) (segment token : String) (now : Nat)
    (rows : List TickRow) (h : st.tickFile = some rows) :
    get_previous_close sv rem st segment token .tick now = (none, st, []) := by
  simp [get_previous_close, h]

theorem c10_tick_previous_close_witness :
    get_previous_close stableSortValues
        ⟨fun _ => .raised, fun _ => (500, [])⟩
        ⟨none, none, some [⟨none, 1, 1, 1⟩, ⟨none, 1, 1, 1⟩]⟩
        "NSE" "7" .tick 123456 =
      (none, ⟨none, none, some [⟨none, 1, 1, 1⟩, ⟨none, 1, 1, 1⟩]⟩, []) := by
  exact c10_tick_previous_close stableSortValues
    ⟨fun _ => .raised, fun _ => (500, [])⟩
    ⟨none, none, some [⟨none, 1, 1, 1⟩, ⟨none, 1, 1, 1⟩]⟩
    "NSE" "7" 123456 [⟨none, 1, 1, 1⟩, ⟨none, 1, 1, 1⟩] rfl

/-- C5: the claim promises that on an overlapping timestamp the fetched
value always wins. The merge keeps, per timestamp, the last occurrence
of the order `sort_values` happens to produce; with the default
`kind="quicksort"` the tie order on equal timestamps is unspecified, so
which occurrence survives is not guaranteed by the source (the
`swapTieSort` counterexample exhibits an admissible order under which
the stale local row survives). Amended: for every admissible backend
the merged dataset keeps exactly one row at the shared timestamp, drawn
from the concatenated rows at that timestamp; under a stable tie order
(such as `kind="mergesort"`, here `stableSortByTs`) that row is the
newly fetched one. -/
theorem c5_freshness_on_overlap (sort : List OhlcRow → List OhlcRow)
    (hv : ValidSort (fun x => x.datetime) sort) (ex nw : List OhlcRow)
    (t : Nat) (r : OhlcRow)
    (hex : ∃ e ∈ ex, e.datetime = some t)
    (hnw : nw.filter (fun x => x.datetime = some t) = [r]) :
    (∃ r1, r1 ∈ (ex ++ nw).filter (fun x => x.datetime = some t) ∧
      (mergeRows sort (fun x => x.datetime) ex nw).filter
        (fun x => x.datetime = some t) = [r1])
    ∧ (mergeRows (stableSortByTs (fun x => x.datetime))
        (fun x => x.datetime) ex nw).filter
        (fun x => x.datetime = some t) = [r] := by
  constructor
  · have hperm : List.Perm
        ((ex ++ nw).filter (fun x => x.datetime = some t))
        ((sort (ex ++ nw)).filter (fun x => x.datetime = some t)) :=
      List.Perm.filter _ (hv (ex ++ nw)).1
    have hne : (ex ++ nw).filter (fun x => x.datetime = some t) ≠ [] := by
      obtain ⟨e, he, het⟩ := hex
      have hm : e ∈ (ex ++ nw).filter (fun x => x.datetime = some t) :=
        List.mem_filter.mpr ⟨List.mem_append_left _ he, by simp [het]⟩
      intro h0
      rw [h0] at hm
      exact absurd hm (List.not_mem_nil e)
    have hne2 : (sort (ex ++ nw)).filter
        (fun x => x.datetime = some t) ≠ [] := by
      intro h0
      have := hperm.length_eq
      rw [h0] at this
      simp only [List.length_nil] at this
      exact hne (List.eq_nil_of_length_eq_zero this)
    rcases hgl : ((sort (ex ++ nw)).filter
        (fun x => x.datetime = some t)).getLast? with _ | r1
    · exact absurd (List.getLast?_eq_none_iff.mp hgl) hne2
    · refine ⟨r1, ?_, ?_⟩
      · exact (hperm.mem_iff).mpr (List.mem_of_getLast?_eq_some hgl)
      · rw [mergeRows,
          filter_dedupKeepLast (fun x : OhlcRow => x.datetime) (some t)]
        unfold lastOnly
        rw [hgl]
  · rw [mergeRows,
      filter_dedupKeepLast (fun x : OhlcRow => x.datetime) (some t),
      show stableSortByTs (fun x : OhlcRow => x.datetime) (ex ++ nw) =
        List.insertionSort
          (fun a b => tsLe a.datetime b.datetime = true) (ex ++ nw) from rfl,
      filter_insertionSort (fun x : OhlcRow => x.datetime) (some t),
      List.filter_append, hnw, lastOnly_concat]

theorem c5_freshness_on_overlap_witness :
    (∃ r1 : OhlcRow, r1 ∈ (([⟨some 5, 1, 1, 1, 7, 0, 0⟩] : List OhlcRow) ++
        ([⟨some 5, 1, 1, 1, 9, 0, 0⟩] : List OhlcRow)).filter
        (fun x => x.datetime = some 5) ∧
      (mergeRows (stableSortByTs (fun x => x.datetime))
        (fun x : OhlcRow => x.datetime)
        ([⟨some 5, 1, 1, 1, 7, 0, 0⟩] : List OhlcRow)
        ([⟨some 5, 1, 1, 1, 9, 0, 0⟩] : List OhlcRow)).filter
        (fun x => x.datetime = some 5) = [r1])
    ∧ (mergeRows (stableSortByTs (fun x => x.datetime))
        (fun x : OhlcRow => x.datetime)
        ([⟨some 5, 1, 1, 1, 7, 0, 0⟩] : List OhlcRow)
        ([⟨some 5, 1, 1, 1, 9, 0, 0⟩] : List OhlcRow)).filter
        (fun x => x.datetime = some 5) = [⟨some 5, 1, 1, 1, 9, 0, 0⟩] := by
  exact c5_freshness_on_overlap (stableSortByTs (fun x => x.datetime))
    (stableSortByTs_valid _)
    ([⟨some 5, 1, 1, 1, 7, 0, 0⟩] : List OhlcRow)
    ([⟨some 5, 1, 1, 1, 9, 0, 0⟩] : List OhlcRow) 5
    ⟨some 5, 1, 1, 1, 9, 0, 0⟩
    ⟨⟨some 5, 1, 1, 1, 7, 0, 0⟩, by simp, rfl⟩ (by decide)

/-- C5 counterexample: `swapTieSort` is an admissible `sort_values`
backend (quicksort fixes no tie order), and under it the merge of a
stale local row and a fetched row sharing timestamp 5 keeps the stale
row: the merged close is the local 7, not the fetched 9 — fetched data
does not always win. -/
theorem c5_counterexample :
    ValidSort (fun x : OhlcRow => x.datetime) swapTieSort
    ∧ mergeRows swapTieSort (fun x : OhlcRow => x.datetime)
        ([⟨some 5, 1, 1, 1, 7, 0, 0⟩] : List OhlcRow)
        ([⟨some 5, 1, 1, 1, 9, 0, 0⟩] : List OhlcRow) =
      [⟨some 5, 1, 1, 1, 7, 0, 0⟩]
    ∧ (⟨some 5, 1, 1, 1, 7, 0, 0⟩ : OhlcRow).close ≠
      (⟨some 5, 1, 1, 1, 9, 0, 0⟩ : OhlcRow).close := by
  refine ⟨?_, by rfl, by decide⟩
  intro l
  by_cases h : l = [⟨some 5, 1, 1, 1, 7, 0, 0⟩, ⟨some 5, 1, 1, 1, 9, 0, 0⟩]
  · subst h
    constructor
    · unfold swapTieSort
      rw [if_pos rfl]
      decide
    · unfold swapTieSort
      rw [if_pos rfl]
      decide
  · unfold swapTieSort
    rw [if_neg h]
    exact stableSortByTs_valid _ l

/-- C3: the claim asserts strict timestamp ordering and uniqueness for
every persisted dataset, merged or cold. The merge path does guarantee
it for every timeframe and every admissible sort backend: after a fetch
that merges with an existing file, the saved rows are strictly
ascending with pairwise distinct timestamps (assuming the stored
timestamps parsed, i.e. no `NaT`). On a cold sync, however, the fetched
rows are persisted verbatim with no sort or de-duplication, so the
invariant holds there only if the remote response already satisfies
it. -/
theorem c3_merge_path_invariant (sv : SortValues) (rem : Remote)
    (st : HistState) (segment token : String) (from_dt to_dt : Nat)
    (hsv : ValidSortValues sv) :
    (∀ ex rows st1 reqs, st.dayFile = some ex →
      download sv rem st segment token .day from_dt to_dt true =
        (.ok (.ohlc rows), st1, reqs) →
      reqs ≠ [] → (∀ x ∈ rows, x.datetime.isSome = true) →
      st1.dayFile = some rows
      ∧ rows.Pairwise (fun a b => a.datetime.getD 0 < b.datetime.getD 0)
      ∧ (rows.map (fun x => x.datetime)).Nodup)
    ∧ (∀ ex rows st1 reqs, st.minuteFile = some ex →
      download sv rem st segment token .minute from_dt to_dt true =
        (.ok (.ohlc rows), st1, reqs) →
      reqs ≠ [] → (∀ x ∈ rows, x.datetime.isSome = true) →
      st1.minuteFile = some rows
      ∧ rows.Pairwise (fun a b => a.datetime.getD 0 < b.datetime.getD 0)
      ∧ (rows.map (fun x => x.datetime)).Nodup)
    ∧ (∀ ex rows st1 reqs, st.tickFile = some ex →
      download sv rem st segment token .tick from_dt to_dt true =
        (.ok (.tickd rows), st1, reqs) →
      reqs ≠ [] → (∀ x ∈ rows, x.utc.isSome = true) →
      st1.tickFile = some rows
      ∧ rows.Pairwise (fun a b => a.utc.getD 0 < b.utc.getD 0)
      ∧ (rows.map (fun x => x.utc)).Nodup) := by
  refine ⟨?_, ?_, ?_⟩
  · intro ex rows st1 reqs hfile hdl hreq hts
    simp only [download] at hdl
    have h1 := congrArg (fun x => x.1) hdl
    have h2 := congrArg (fun x => x.2.1) hdl
    have h3 := congrArg (fun x => x.2.2) hdl
    simp only at h1 h2 h3
    rw [hfile] at h1 h2 h3
    have hok : (downloadCore (fun x => x.datetime) sv.onOhlc parse_day_minute
        rem (some ex) segment token "day" (unitStep .day)
        from_dt to_dt true).1 = .ok rows := by
      rcases he : (downloadCore (fun x => x.datetime) sv.onOhlc
          parse_day_minute rem (some ex) segment token "day" (unitStep .day)
          from_dt to_dt true).1 with e | v
      · rw [he] at h1
        simp [Except.map] at h1
      · rw [he] at h1
        simp only [Except.map, Except.ok.injEq, FileData.ohlc.injEq] at h1
        rw [he, h1]
    have hreqs : (downloadCore (fun x => x.datetime) sv.onOhlc
        parse_day_minute rem (some ex) segment token "day" (unitStep .day)
        from_dt to_dt true).2.2 ≠ [] := by
      rw [h3]
      exact hreq
    obtain ⟨hfd, hinv⟩ := downloadCore_merge_invariant _ _ _ _ _ _ _ _ _ _ _ _
      hsv.1 hok hreqs hts
    refine ⟨?_, hinv⟩
    rw [← h2, hfd]
  · intro ex rows st1 reqs hfile hdl hreq hts
    simp only [download] at hdl
    have h1 := congrArg (fun x => x.1) hdl
    have h2 := congrArg (fun x => x.2.1) hdl
    have h3 := congrArg (fun x => x.2.2) hdl
    simp only at h1 h2 h3
    rw [hfile] at h1 h2 h3
    have hok : (downloadCore (fun x => x.datetime) sv.onOhlc parse_day_minute
        rem (some ex) segment token "minute" (unitStep .minute)
        from_dt to_dt true).1 = .ok rows := by
      rcases he : (downloadCore (fun x => x.datetime) sv.onOhlc
          parse_day_minute rem (some ex) segment token "minute"
          (unitStep .minute) from_dt to_dt true).1 with e | v
      · rw [he] at h1
        simp [Except.map] at h1
      · rw [he] at h1
        simp only [Except.map, Except.ok.injEq, FileData.ohlc.injEq] at h1
        rw [he, h1]
    have hreqs : (downloadCore (fun x => x.datetime) sv.onOhlc
        parse_day_minute rem (some ex) segment token "minute"
        (unitStep .minute) from_dt to_dt true).2.2 ≠ [] := by
      rw [h3]
      exact hreq
    obtain ⟨hfd, hinv⟩ := downloadCore_merge_invariant _ _ _ _ _ _ _ _ _ _ _ _
      hsv.1 hok hreqs hts
    refine ⟨?_, hinv⟩
    rw [← h2, hfd]
  · intro ex rows st1 reqs hfile hdl hreq hts
    simp only [download] at hdl
    have h1 := congrArg (fun x => x.1) hdl
    have h2 := congrArg (fun x => x.2.1) hdl
    have h3 := congrArg (fun x => x.2.2) hdl
    simp only at h1 h2 h3
    rw [hfile] at h1 h2 h3
    have hok : (downloadCore (fun x => x.utc) sv.onTick parse_tick
        rem (some ex) segment token "tick" (unitStep .tick)
        from_dt to_dt true).1 = .ok rows := by
      rcases he : (downloadCore (fun x => x.utc) sv.onTick parse_tick
          rem (some ex) segment token "tick" (unitStep .tick)
          from_dt to_dt true).1 with e | v
      · rw [he] at h1
        simp [Except.map] at h1
      · rw [he] at h1
        simp only [Except.map, Except.ok.injEq, FileData.tickd.injEq] at h1
        rw [he, h1]
    have hreqs : (downloadCore (fun x => x.utc) sv.onTick parse_tick
        rem (some ex) segment token "tick" (unitStep .tick)
        from_dt to_dt true).2.2 ≠ [] := by
      rw [h3]
      exact hreq
    obtain ⟨hfd, hinv⟩ := downloadCore_merge_invariant _ _ _ _ _ _ _ _ _ _ _ _
      hsv.2 hok hreqs hts
    refine ⟨?_, hinv⟩
    rw [← h2, hfd]

theorem c3_merge_path_invariant_witness :
    (download stableSortValues
        ⟨fun _ => .text [["86400", "1", "1", "1", "9", "0", "0"]],
          fun _ => (500, [])⟩
        ⟨some [⟨some 0, 1, 1, 1, 7, 0, 0⟩], none, none⟩
        "NSE" "1" .day 0 172800 true).2.1.dayFile =
      some [⟨some 0, 1, 1, 1, 7, 0, 0⟩, ⟨some 86400, 1, 1, 1, 9, 0, 0⟩]
    ∧ (([⟨some 0, 1, 1, 1, 7, 0, 0⟩,
        ⟨some 86400, 1, 1, 1, 9, 0, 0⟩] : List OhlcRow)).Pairwise
        (fun a b => a.datetime.getD 0 < b.datetime.getD 0) := by
  have h := (c3_merge_path_invariant stableSortValues
    ⟨fun _ => .text [["86400", "1", "1", "1", "9", "0", "0"]],
      fun _ => (500, [])⟩
    ⟨some [⟨some 0, 1, 1, 1, 7, 0, 0⟩], none, none⟩ "NSE" "1" 0 172800
    stableSortValues_valid).1
    [⟨some 0, 1, 1, 1, 7, 0, 0⟩]
    [⟨some 0, 1, 1, 1, 7, 0, 0⟩, ⟨some 86400, 1, 1, 1, 9, 0, 0⟩]
    (download stableSortValues
      ⟨fun _ => .text [["86400", "1", "1", "1", "9", "0", "0"]],
        fun _ => (500, [])⟩
      ⟨some [⟨some 0, 1, 1, 1, 7, 0, 0⟩], none, none⟩
      "NSE" "1" .day 0 172800 true).2.1
    [⟨"NSE", "1", "day", 86400, 172800⟩]
    rfl (by rfl) (by decide) (by decide)
  exact ⟨h.1, h.2.1⟩

/-- C3 counterexample: a cold sync (no prior local file) persists the
fetched rows verbatim; a remote response with a repeated timestamp is
saved as-is, so the persisted dataset violates timestamp uniqueness. -/
theorem c3_counterexample :
    (download stableSortValues
        ⟨fun _ => .text [["5", "1", "1", "1", "7", "0", "0"],
          ["5", "1", "1", "1", "8", "0", "0"]], fun _ => (500, [])⟩
        ⟨none, none, none⟩ "NSE" "1" .day 0 172800 true).2.1.dayFile =
      some [⟨some 5, 1, 1, 1, 7, 0, 0⟩, ⟨some 5, 1, 1, 1, 8, 0, 0⟩]
    ∧ ¬ ((([⟨some 5, 1, 1, 1, 7, 0, 0⟩,
        ⟨some 5, 1, 1, 1, 8, 0, 0⟩] : List OhlcRow)).map
        (fun x => x.datetime)).Nodup := by
  exact ⟨rfl, by decide⟩

/-- C6: the claim promises zero requests on an identical repeat call
whenever no new remote data exists. The code short-circuits only when
the resume point computed from the stored last timestamp reaches the
range end; otherwise a repeat call issues a request even when the
remote holds nothing new. Amended: after a first call, a second call
with the same arguments issues zero requests and returns the stored
dataset with the on-disk state unchanged exactly in the case that the
stored last timestamp plus one timeframe unit is at least `to_dt`. -/
theorem c6_second_sync_shortcircuit (sv : SortValues) (rem : Remote)
    (st st1 : HistState) (segment token : String) (tf : Timeframe)
    (from_dt to_dt : Nat) (r1 : Except HistErr FileData)
    (reqs1 : List HistReq) (T1 : Nat)
    (h1 : download sv rem st segment token tf from_dt to_dt true =
      (r1, st1, reqs1))
    (hT : histLastTs st1 tf = some T1)
    (hdone : to_dt ≤ T1 + unitStep tf) :
    download sv rem st1 segment token tf from_dt to_dt true =
      (.ok (fileDataOf st1 tf), st1, []) := by
  clear h1
  cases tf with
  | day =>
    unfold download
    rw [downloadCore_shortcircuit _ _ _ _ _ _ _ _ _ _ _ _ T1 hT hdone]
    simp [fileDataOf, Except.map]
  | minute =>
    unfold download
    rw [downloadCore_shortcircuit _ _ _ _ _ _ _ _ _ _ _ _ T1 hT hdone]
    simp [fileDataOf, Except.map]
  | tick =>
    unfold download
    rw [downloadCore_shortcircuit _ _ _ _ _ _ _ _ _ _ _ _ T1 hT hdone]
    simp [fileDataOf, Except.map]

theorem c6_second_sync_shortcircuit_witness :
    download stableSortValues
        ⟨fun _ => .text [["0", "1", "2", "3", "4", "5", "6"]],
          fun _ => (500, [])⟩
        ⟨some [⟨some 0, 1, 2, 3, 4, 5, 6⟩], none, none⟩
        "NSE" "1" .day 0 86400 true =
      (.ok (.ohlc [⟨some 0, 1, 2, 3, 4, 5, 6⟩]),
        ⟨some [⟨some 0, 1, 2, 3, 4, 5, 6⟩], none, none⟩, []) := by
  exact c6_second_sync_shortcircuit stableSortValues
    ⟨fun _ => .text [["0", "1", "2", "3", "4", "5", "6"]],
      fun _ => (500, [])⟩
    ⟨some [⟨some 0, 1, 2, 3, 4, 5, 6⟩], none, none⟩
    ⟨some [⟨some 0, 1, 2, 3, 4, 5, 6⟩], none, none⟩
    "NSE" "1" .day 0 86400
    (.ok (.ohlc [⟨some 0, 1, 2, 3, 4, 5, 6⟩])) [] 0
    (by rfl) rfl (by decide)

/-- C6 counterexample: a remote whose client channel only ever serves
the timestamp-0 row (so no new data exists after the first call). The
first call saves that row; the second call with identical arguments
leaves the dataset byte-identical but still issues one request (from
the resume point), not zero — the short-circuit fires only when the
resume point reaches the range end. -/
theorem c6_counterexample :
    download stableSortValues
        ⟨fun _ => .text [["0", "1", "2", "3", "4", "5", "6"]],
          fun _ => (500, [])⟩
        ⟨none, none, none⟩ "NSE" "1" .day 0 172800 true =
      (.ok (.ohlc [⟨some 0, 1, 2, 3, 4, 5, 6⟩]),
        ⟨some [⟨some 0, 1, 2, 3, 4, 5, 6⟩], none, none⟩,
        [⟨"NSE", "1", "day", 0, 172800⟩])
    ∧ download stableSortValues
        ⟨fun _ => .text [["0", "1", "2", "3", "4", "5", "6"]],
          fun _ => (500, [])⟩
        ⟨some [⟨some 0, 1, 2, 3, 4, 5, 6⟩], none, none⟩
        "NSE" "1" .day 0 172800 true =
      (.ok (.ohlc [⟨some 0, 1, 2, 3, 4, 5, 6⟩]),
        ⟨some [⟨some 0, 1, 2, 3, 4, 5, 6⟩], none, none⟩,
        [⟨"NSE", "1", "day", 86400, 172800⟩])
    ∧ ([⟨"NSE", "1", "day", 86400, 172800⟩] : List HistReq) ≠ [] := by
  refine ⟨by rfl, by rfl, by decide⟩

/-- C8: the claim says the fallback sync applies the same
previous-close rule to the downloaded data and only returns `None` when
no data can be obtained. With an existing day file the rule does run as
specified; but the fallback applies the rule only behind a
`len(df) >= 2` guard, so a downloaded dataset with exactly one row
yields `None` even though the rule would return that row's close.
Amended: with a present nonempty day file whose last timestamp parses,
the rule runs on the stored rows with no request; with no day file, the
trailing-ten-day day sync runs, the rule is applied only when at least
two rows came back, and `None` is returned (never an exception) when
the sync fails or returns fewer than two rows. -/
theorem c8_previous_close (sv : SortValues) (rem : Remote) (st : HistState)
    (segment token : String) (now : Nat) :
    (∀ rows lastRow t, st.dayFile = some rows →
      rows.getLast? = some lastRow → lastRow.datetime = some t →
      get_previous_close sv rem st segment token .day now =
        ((if sameDate lastRow.datetime now && 2 ≤ rows.length then
            (secondLast rows).map fun r => r.close
          else some lastRow.close), st, []))
    ∧ (∀ df st1 reqs lastRow t, st.dayFile = none →
      download sv rem st segment token .day (now - 10 * 86400) now true =
        (.ok (.ohlc df), st1, reqs) →
      2 ≤ df.length → df.getLast? = some lastRow →
      lastRow.datetime = some t →
      get_previous_close sv rem st segment token .day now =
        ((if sameDate lastRow.datetime now then
            (secondLast df).map fun r => r.close
          else some lastRow.close), st1, reqs))
    ∧ (∀ e st1 reqs, st.dayFile = none →
      download sv rem st segment token .day (now - 10 * 86400) now true =
        (.error e, st1, reqs) →
      (get_previous_close sv rem st segment token .day now).1 = none)
    ∧ (∀ df st1 reqs, st.dayFile = none →
      download sv rem st segment token .day (now - 10 * 86400) now true =
        (.ok (.ohlc df), st1, reqs) →
      df.length < 2 →
      (get_previous_close sv rem st segment token .day now).1 = none) := by
  refine ⟨?_, ?_, ?_, ?_⟩
  · intro rows lastRow t hf hl ht
    rcases rows with _ | ⟨a, rest⟩
    · simp at hl
    · simp only [get_previous_close, hf, hl, ht]
      simp only [List.isEmpty_cons, Bool.false_eq_true, if_false]
      split <;> rfl
  · intro df st1 reqs lastRow t hf hdl hlen hl ht
    have hne : df ≠ [] := by
      intro h0
      rw [h0] at hl
      simp at hl
    simp only [get_previous_close, hf, hdl, hlen, hl, ht,
      List.isEmpty_iff, hne, if_false, if_true]
    split <;> rfl
  · intro e st1 reqs hf hdl
    simp [get_previous_close, hf, hdl]
  · intro df st1 reqs hf hdl hlen
    have hlen2 : ¬ 2 ≤ df.length := by omega
    rcases df with _ | ⟨a, rest⟩
    · simp [get_previous_close, hf, hdl]
    · simp only [get_previous_close, hf, hdl, hlen2]
      split <;> rfl

theorem c8_previous_close_witness :
    get_previous_close stableSortValues
        ⟨fun _ => .raised, fun _ => (500, [])⟩
        ⟨some [⟨some 432000, 1, 1, 1, 41, 0, 0⟩,
          ⟨some 518400, 1, 1, 1, 42, 0, 0⟩], none, none⟩
        "NSE" "1" .day (20 * 86400) =
      (some 42,
        ⟨some [⟨some 432000, 1, 1, 1, 41, 0, 0⟩,
          ⟨some 518400, 1, 1, 1, 42, 0, 0⟩], none, none⟩, []) := by
  have h := (c8_previous_close stableSortValues
    ⟨fun _ => .raised, fun _ => (500, [])⟩
    ⟨some [⟨some 432000, 1, 1, 1, 41, 0, 0⟩,
      ⟨some 518400, 1, 1, 1, 42, 0, 0⟩], none, none⟩
    "NSE" "1" (20 * 86400)).1
    [⟨some 432000, 1, 1, 1, 41, 0, 0⟩, ⟨some 518400, 1, 1, 1, 42, 0, 0⟩]
    ⟨some 518400, 1, 1, 1, 42, 0, 0⟩ 518400 rfl rfl rfl
  simpa using h

/-- C8 counterexample: no local day file, and a remote that returns
exactly one candle with a non-current date. The claimed rule (also
stated as `specRulePreviousClose`, taken from the spec wording) returns
that candle's close, but `get_previous_close` returns `None` because
the fallback applies the rule only when at least two rows were
downloaded. -/
theorem c8_counterexample :
    get_previous_close stableSortValues
        ⟨fun _ => .text [["432000", "1", "1", "1", "42", "0", "0"]],
          fun _ => (500, [])⟩
        ⟨none, none, none⟩ "NSE" "1" .day (20 * 86400) =
      (none, ⟨some [⟨some 432000, 1, 1, 1, 42, 0, 0⟩], none, none⟩,
        [⟨"NSE", "1", "day", 864000, 1728000⟩])
    ∧ specRulePreviousClose [⟨some 432000, 1, 1, 1, 42, 0, 0⟩] (20 * 86400) =
        some 42 := by
  exact ⟨by rfl, by rfl⟩

end Tradebot
